import Mathlib

/-!
Formal model of the PixelShop editor core (src/App.tsx), shallowly embedded
in Lean 4.

The embedding covers the three core subsystems of the application:

* the edit-history engine (`history` list of snapshot files plus integer
  cursor `historyIndex`, with commit / undo / redo / reset / clear),
* the batch pipeline (`BatchImage` items driven sequentially through an
  injected edit operation, with cooperative cancellation and per-item retry),
* the viewport geometry (zoom/pan coordinate mapping, wheel zoom-about-cursor)
  and the mask-export path (blank detection and flattening onto an opaque
  black backing surface).

Image files are modelled as opaque `String` handles (binary content + name are
irrelevant to the verified control logic).  Machine numbers that the source
manipulates as JS doubles in exact arithmetic contexts (zoom, pan, pixel
channels) are modelled as rationals `ℚ`; the history cursor, which the source
keeps as a JS integer (including the `-1` empty sentinel), is modelled as `ℤ`.
The asynchronous edit operation is modelled as a function returning
`Except String String` (error message or result URL); sequential `await`
chains become ordinary sequential function application, which is faithful
because the source never runs two operations concurrently (the batch loop
awaits each item before starting the next).
-/

namespace PixelShop

/-- Status of one batch work item (src/App.tsx line 125,
`type BatchImageStatus = 'pending' | 'processing' | 'done' | 'error'`). -/
inductive BatchStatus where
  | pending
  | processing
  | done
  | error
deriving DecidableEq, Repr

/-- One batch work item (src/App.tsx lines 126-132, `interface BatchImage`).
The source generates `id` as a random string; it is modelled as a `Nat`.
`original` is the source image file, `editedUrl` the result when done,
`error` the failure message when in the error state. -/
structure BatchImage where
  id : Nat
  original : String
  editedUrl : Option String := none
  status : BatchStatus
  error : Option String := none
deriving DecidableEq, Repr

/-- The slice of App component state that the verified claims are about
(src/App.tsx lines 147-152): the single-image history list with its cursor,
and the batch item list.  Transient UI state (crop selections, zoom/pan,
prompts, loading flags) is modelled separately where a claim needs it. -/
structure AppState where
  history : List String
  historyIndex : Int
  batchImages : List BatchImage
deriving DecidableEq, Repr

/-- JavaScript `array.slice(0, e)` for an integer end bound: a negative bound
counts from the end of the array (clamped at 0), a non-negative bound takes
that many leading elements. -/
def jsSliceTo (l : List α) (e : Int) : List α :=
  if e < 0 then l.take ((l.length : Int) + e).toNat else l.take e.toNat

/-- src/App.tsx line 335: `const canUndo = historyIndex > 0`. -/
def canUndo (s : AppState) : Bool :=
  decide (0 < s.historyIndex)

/-- src/App.tsx line 336: `const canRedo = historyIndex < history.length - 1`. -/
def canRedo (s : AppState) : Bool :=
  decide (s.historyIndex < (s.history.length : Int) - 1)

/-- src/App.tsx line 204: `const currentImage = history[historyIndex] ?? null`
(JS indexing with a negative index yields `undefined`, hence `none`). -/
def currentImage (s : AppState) : Option String :=
  if s.historyIndex < 0 then none else s.history.get? s.historyIndex.toNat

/-- src/App.tsx lines 343-354, `addImageToHistory`: truncate the list to
`slice(0, historyIndex + 1)`, append the new snapshot file, and set the
cursor to the new last index.  The batch list is not touched.  (The source
additionally clears crop selections and resets the viewport; those transient
fields are outside `AppState`.) -/
def addImageToHistory (newImageFile : String) (s : AppState) : AppState :=
  let newHistory := jsSliceTo s.history (s.historyIndex + 1) ++ [newImageFile]
  { s with history := newHistory, historyIndex := (newHistory.length : Int) - 1 }

/-- src/App.tsx lines 356-367, `handleImageUpload`: a single upload replaces
the history with just the uploaded file at cursor 0 and clears batch mode
(`setBatchImages([])`). -/
def handleImageUpload (file : String) (_s : AppState) : AppState :=
  { history := [file], historyIndex := 0, batchImages := [] }

/-- src/App.tsx lines 708-715, `handleUndo`: guarded by `canUndo`, decrements
the cursor; otherwise nothing happens. -/
def handleUndo (s : AppState) : AppState :=
  if canUndo s then { s with historyIndex := s.historyIndex - 1 } else s

/-- src/App.tsx lines 717-724, `handleRedo`: guarded by `canRedo`, increments
the cursor; otherwise nothing happens. -/
def handleRedo (s : AppState) : AppState :=
  if canRedo s then { s with historyIndex := s.historyIndex + 1 } else s

/-- src/App.tsx lines 726-734, `handleReset`: if the history is non-empty,
moves the cursor back to the original snapshot at index 0. -/
def handleReset (s : AppState) : AppState :=
  if 0 < s.history.length then { s with historyIndex := 0 } else s

/-- src/App.tsx lines 736-746, `handleUploadNew`: clears the history
(cursor `-1`) and the batch list. -/
def handleUploadNew (_s : AppState) : AppState :=
  { history := [], historyIndex := -1, batchImages := [] }

/-- src/App.tsx lines 823-827: fresh batch items for the selected files, all
`pending`.  The source derives each id from the file name, timestamp and a
random number (unique by construction); the model uses the position. -/
def mkBatchImages (files : List String) : List BatchImage :=
  files.enum.map fun p =>
    { id := p.1, original := p.2, editedUrl := none, status := .pending, error := none }

/-- src/App.tsx lines 815-832, `handleFileSelect`: no file does nothing,
exactly one file goes through the single-image upload path, several files
clear the single-image history (`[]`, cursor `-1`) and create one pending
batch item per file. -/
def handleFileSelect (files : List String) (s : AppState) : AppState :=
  match files with
  | [] => s
  | [f] => handleImageUpload f s
  | _ => { history := [], historyIndex := -1, batchImages := mkBatchImages files }

/-- The History List invariant from the data model: the list is empty exactly
when the cursor is `-1`, and a non-empty list keeps the cursor inside
`[0, length)`. -/
def historyInv (s : AppState) : Prop :=
  (s.history = [] ↔ s.historyIndex = -1) ∧
  (s.history ≠ [] → 0 ≤ s.historyIndex ∧ s.historyIndex < (s.history.length : Int))

instance (s : AppState) : Decidable (historyInv s) := by
  unfold historyInv; infer_instance

/-- The mutual-exclusion invariant between the two editing modes: at most one
of the single-image history and the batch list is non-empty. -/
def modeMutex (s : AppState) : Prop :=
  s.history = [] ∨ s.batchImages = []

instance (s : AppState) : Decidable (modeMutex s) := by
  unfold modeMutex; infer_instance

/-- The blank-prompt guard `!prompt.trim()` (src/App.tsx lines 403, 466): a
prompt is blank exactly when every character is whitespace, i.e. trimming
leaves the empty string. -/
def promptIsBlank (prompt : String) : Bool :=
  prompt.data.all fun c => c.isWhitespace

/-- src/App.tsx line 408: the batch run selects items whose status is
`pending` or `error`. -/
def selectedForBatch (img : BatchImage) : Bool :=
  match img.status with
  | .pending => true
  | .error => true
  | _ => false

/-- Recording the outcome of one edit operation on one item (src/App.tsx
lines 436-451): success stores the result URL, sets `done` and clears the
error message; failure sets `error` and stores the failure's message. -/
def applyResult (r : Except String String) (img : BatchImage) : BatchImage :=
  match r with
  | .ok url => { img with editedUrl := some url, status := .done, error := none }
  | .error msg => { img with status := .error, error := some msg }

/-- One iteration of the batch loop body (src/App.tsx lines 432-451): mark the
target item `processing` (matching by id), run the edit operation on the
item's source image, then record the outcome on the item (again matching by
id).  The edit operation is the injected `op`; its `await` is serialized, so
one iteration is a single state-to-state step. -/
def batchStep (op : String → Except String String) (state : List BatchImage)
    (target : BatchImage) : List BatchImage :=
  let marked := state.map fun img =>
    if img.id = target.id then { img with status := .processing } else img
  match op target.original with
  | .ok url => marked.map fun img =>
      if img.id = target.id then
        { img with editedUrl := some url, status := .done, error := none }
      else img
  | .error msg => marked.map fun img =>
      if img.id = target.id then { img with status := .error, error := some msg }
      else img

/-- The batch loop (src/App.tsx lines 426-452).  `cancelFlag k` is the value
of `isCancellingRef.current` observed by the check at the top of iteration
`k`; a `true` check breaks out of the loop before the next item is started.
Alongside the final item list the model returns the ids handed to the edit
operation, in invocation order. -/
def runBatchAux (op : String → Except String String) (cancelFlag : Nat → Bool) :
    List BatchImage × List Nat → Nat → List BatchImage → List BatchImage × List Nat
  | acc, _, [] => acc
  | (state, invoked), k, t :: rest =>
    if cancelFlag k then (state, invoked)
    else runBatchAux op cancelFlag (batchStep op state t, invoked ++ [t.id]) (k + 1) rest

/-- src/App.tsx lines 402-456, `handleBatchApply`: a blank prompt reports an
error and returns; otherwise the items with status `pending` or `error` are
selected, an empty selection returns immediately with no side effects, and a
non-empty selection is processed sequentially by the loop.  `flagBefore` is
whatever was left in `isCancellingRef` by a previous run; line 415 resets the
flag at the start of the run, so the loop observes only `cancelFlag`. -/
def handleBatchApplyRun (_flagBefore : Bool) (prompt : String)
    (op : String → Except String String) (cancelFlag : Nat → Bool)
    (items : List BatchImage) : List BatchImage × List Nat :=
  if promptIsBlank prompt then (items, [])
  else
    let imagesToProcess := items.filter selectedForBatch
    if imagesToProcess.length = 0 then (items, [])
    else runBatchAux op cancelFlag (items, []) 0 imagesToProcess

/-- Number of loop iterations that run before the cancellation flag is first
observed `true`, starting the checks at index `k` with `n` items left: the
first `true` check breaks the loop permanently. -/
def cancelPoint (cancelFlag : Nat → Bool) : Nat → Nat → Nat
  | _, 0 => 0
  | k, n + 1 => if cancelFlag k then 0 else cancelPoint cancelFlag (k + 1) n + 1

/-- The batch item carrying a given id, as the UI reads it back. -/
def getById (l : List BatchImage) (i : Nat) : Option BatchImage :=
  l.find? fun img => img.id == i

/-- Update-by-id: the shape of every `setBatchImages(prev => prev.map(...))`
call in the source — touch the item matching the id, leave the rest alone. -/
def updById (r : Except String String) (tid : Nat) (img : BatchImage) : BatchImage :=
  if img.id = tid then applyResult r img else img

/-- The per-element effect of folding the batch loop body over a list of
targets. -/
def updFold (op : String → Except String String) (img : BatchImage)
    (ts : List BatchImage) : BatchImage :=
  ts.foldl (fun x t => updById (op t.original) t.id x) img

/-- The editor tabs (src/App.tsx line 122). -/
inductive Tab where
  | edit
  | adjust
  | filters
  | crop
  | uncrop
deriving DecidableEq, Repr

/-- src/App.tsx lines 459-464: retry derives its prompt from the active tab
(`filterPrompt` on the filters tab, `adjustmentPrompt` otherwise). -/
def retryPrompt (tab : Tab) (filterPromptText adjustmentPromptText : String) : String :=
  match tab with
  | .filters => filterPromptText
  | _ => adjustmentPromptText

/-- The state transition of one retry (src/App.tsx lines 475-494): mark the
target `processing` and clear its error message, run the edit operation,
record the outcome — all matching by id, exactly like one batch-loop step. -/
def retryStep (op : String → Except String String) (state : List BatchImage)
    (target : BatchImage) : List BatchImage :=
  let marked := state.map fun img =>
    if img.id = target.id then { img with status := .processing, error := none }
    else img
  match op target.original with
  | .ok url => marked.map fun img =>
      if img.id = target.id then
        { img with editedUrl := some url, status := .done, error := none }
      else img
  | .error msg => marked.map fun img =>
      if img.id = target.id then { img with status := .error, error := some msg }
      else img

/-- src/App.tsx lines 458-495, `handleRetryImage`: rejected when the active
tab is neither adjust nor filters, or when the tab's prompt is blank;
otherwise the target item — with no check of its current status — is pushed
through one retry step.  The second component lists the ids handed to the
edit operation. -/
def handleRetryImage (tab : Tab) (filterPromptText adjustmentPromptText : String)
    (op : String → Except String String) (items : List BatchImage)
    (target : BatchImage) : List BatchImage × List Nat :=
  if tab ≠ .adjust ∧ tab ≠ .filters then (items, [])
  else
    let prompt := retryPrompt tab filterPromptText adjustmentPromptText
    if promptIsBlank prompt then (items, [])
    else (retryStep op items target, [target.id])

/-- A 2D vector over exact rationals (viewport points, pan offsets). -/
structure Vec2 where
  x : ℚ
  y : ℚ
deriving DecidableEq, Repr

/-- src/App.tsx lines 866-880, `getPointOnImage`: the pointer's client
position is made viewport-local by subtracting the viewport rectangle's
top-left corner, then unmapped through the current pan and zoom into
image-space coordinates. -/
def getPointOnImage (zoom : ℚ) (pan : Vec2) (rectTopLeft client : Vec2) : Vec2 :=
  let mouseX := client.x - rectTopLeft.x
  let mouseY := client.y - rectTopLeft.y
  { x := (mouseX - pan.x) / zoom, y := (mouseY - pan.y) / zoom }

/-- src/App.tsx lines 922-944, `handleWheel`: scale the zoom by
`1 - deltaY * 0.001`, clamp it to `[0.1, 5]`, and recompute the pan so that
the image-space point that was under the cursor stays under the cursor.  The
pan is taken as computed — no clamping. -/
def handleWheel (zoom : ℚ) (pan : Vec2) (rectTopLeft client : Vec2)
    (deltaY : ℚ) : ℚ × Vec2 :=
  let mouseX := client.x - rectTopLeft.x
  let mouseY := client.y - rectTopLeft.y
  let zoomFactor := 1 - deltaY * (1 / 1000)
  let nextZoom := max (1 / 10) (min (zoom * zoomFactor) 5)
  let imgX := (mouseX - pan.x) / zoom
  let imgY := (mouseY - pan.y) / zoom
  (nextZoom, { x := mouseX - imgX * nextZoom, y := mouseY - imgY * nextZoom })

/-- One RGBA pixel with exact rational channels (0 to 1 scale).  A raw u32
value of 0 in the source's pixel scan corresponds to all four channels 0. -/
structure Pixel where
  r : ℚ
  g : ℚ
  b : ℚ
  a : ℚ
deriving DecidableEq, Repr

/-- The all-zero (fully transparent) pixel — the value a u32 scan reads as 0. -/
def Pixel.zero : Pixel := ⟨0, 0, 0, 0⟩

/-- The mask stroke buffer: a raster surface of `width * height` RGBA pixels. -/
structure MaskCanvas where
  width : Nat
  height : Nat
  data : List Pixel
deriving DecidableEq, Repr

/-- src/App.tsx lines 55-71, `isCanvasBlank`: a missing canvas (or context)
counts as blank; otherwise the raw pixel buffer is scanned and the canvas is
blank exactly when no pixel is non-zero
(`!pixelBuffer.some(pixel => pixel !== 0)`). -/
def isCanvasBlank (canvas : Option MaskCanvas) : Bool :=
  match canvas with
  | none => true
  | some c => !(c.data.any fun p => decide (p ≠ Pixel.zero))

/-- Source-over compositing of one stroke pixel onto an opaque black
destination pixel, the per-pixel effect of `fillRect` black followed by
`drawImage` of the stroke buffer: the result is fully opaque, and each color
channel is the stroke channel weighted by the stroke alpha (a transparent
stroke pixel yields opaque black, an opaque white stroke pixel stays white). -/
def overOpaqueBlack (p : Pixel) : Pixel :=
  { r := p.r * p.a, g := p.g * p.a, b := p.b * p.a, a := 1 }

/-- src/App.tsx lines 497-527, `getMaskAsFile`: a missing or blank stroke
buffer exports as "no mask" (null); otherwise a fresh output canvas of the
same dimensions is filled opaque black and the stroke buffer is drawn on top,
and that flattened artifact is the exported file. -/
def getMaskAsFile (canvas : Option MaskCanvas) : Option MaskCanvas :=
  match canvas with
  | none => none
  | some c =>
    if isCanvasBlank (some c) then none
    else some { width := c.width, height := c.height, data := c.data.map overOpaqueBlack }

/-- What a single-image apply call does with masking: either it stops with a
user-facing error before the edit operation is ever invoked, or it invokes
the operation exactly once with the mask value shown. -/
inductive SingleEditOutcome where
  | errored (msg : String)
  | invoked (mask : Option MaskCanvas) (result : Except String String)
deriving Repr

/-- The user-facing error surfaced when masking is on but nothing was drawn
(src/App.tsx line 552). -/
def maskMissingError : String :=
  "Masking is enabled, but no mask has been drawn. Please draw on the image or disable masking."

/-- The masking logic of the single-image apply path (src/App.tsx lines
545-558, identical in `handleApplyFilter` and `handleApplyAdjustment`): with
masking enabled, a null export surfaces the user-facing error and the edit
operation is not invoked; otherwise the operation receives the flattened
export — never the raw stroke buffer.  With masking off the operation runs
unmasked. -/
def handleApplyFilterSingle (isMasking : Bool) (maskCanvas : Option MaskCanvas)
    (op : Option MaskCanvas → Except String String) : SingleEditOutcome :=
  if isMasking then
    match getMaskAsFile maskCanvas with
    | none => .errored maskMissingError
    | some maskFile => .invoked (some maskFile) (op (some maskFile))
  else .invoked none (op none)

theorem jsSliceTo_of_nonneg (l : List α) (e : Int) (he : 0 ≤ e) :
    jsSliceTo l e = l.take e.toNat := by
  unfold jsSliceTo
  rw [if_neg (by omega)]

theorem historyInv_nonneg_succ (s : AppState) (hinv : historyInv s) :
    0 ≤ s.historyIndex + 1 := by
  rcases hinv with ⟨hiff, hbound⟩
  by_cases h : s.history = []
  · have := hiff.mp h
    omega
  · have := hbound h
    omega

/-- Claim C1: committing a new snapshot from any state satisfying the history
invariant truncates the list to indices `[0..cursor]`, appends the new
snapshot, moves the cursor to the new last index (one past the old cursor),
and leaves nothing to redo (`canRedo` is false), so any previously redoable
snapshots (indices above the old cursor) are dropped from the list. -/
theorem commit_truncates_and_kills_redo (s : AppState) (f : String)
    (hinv : historyInv s) :
    (addImageToHistory f s).history
        = s.history.take (s.historyIndex + 1).toNat ++ [f]
    ∧ (addImageToHistory f s).historyIndex = s.historyIndex + 1
    ∧ (addImageToHistory f s).historyIndex
        = ((addImageToHistory f s).history.length : Int) - 1
    ∧ canRedo (addImageToHistory f s) = false := by
  have hnn : 0 ≤ s.historyIndex + 1 := historyInv_nonneg_succ s hinv
  have hslice : jsSliceTo s.history (s.historyIndex + 1)
      = s.history.take (s.historyIndex + 1).toNat :=
    jsSliceTo_of_nonneg _ _ hnn
  have hhist : (addImageToHistory f s).history
      = s.history.take (s.historyIndex + 1).toNat ++ [f] := by
    simp [addImageToHistory, hslice]
  have htake : (s.historyIndex + 1).toNat ≤ s.history.length := by
    rcases hinv with ⟨hiff, hbound⟩
    by_cases h : s.history = []
    · have := hiff.mp h
      simp [h] at *
      omega
    · have := hbound h
      omega
  have hlen : (addImageToHistory f s).history.length
      = (s.historyIndex + 1).toNat + 1 := by
    rw [hhist]
    simp [List.length_take]
    omega
  have hidx : (addImageToHistory f s).historyIndex
      = ((addImageToHistory f s).history.length : Int) - 1 := by
    simp [addImageToHistory]
  refine ⟨hhist, ?_, hidx, ?_⟩
  · rw [hidx, hlen]
    omega
  · simp only [canRedo, hidx, hlen]
    simp

/-- Claim C1 witness: a concrete three-snapshot history with the cursor at
index 1 (one undo back); committing drops the redoable snapshot "c". -/
theorem commit_truncates_witness :
    (addImageToHistory "d" ⟨["a", "b", "c"], 1, []⟩).history = ["a", "b", "d"]
    ∧ (addImageToHistory "d" ⟨["a", "b", "c"], 1, []⟩).historyIndex = 2
    ∧ canRedo (addImageToHistory "d" ⟨["a", "b", "c"], 1, []⟩) = false := by
  have h := commit_truncates_and_kills_redo ⟨["a", "b", "c"], 1, []⟩ "d" (by decide)
  refine ⟨by rw [h.1]; rfl, by rw [h.2.1]; rfl, h.2.2.2⟩

/-- Claim C5: `undo` at cursor 0 (where `canUndo` is false) and `redo` at the
last index (where `canRedo` is false) leave the whole state unchanged — list,
cursor, and hence the current snapshot — and no error is raised (the model is
total); when the guards do hold, `undo` decrements the cursor by exactly one
and `redo` increments it by exactly one, leaving the list untouched. -/
theorem undo_redo_boundary_noops (s : AppState) :
    (s.historyIndex = 0 → handleUndo s = s)
    ∧ (canUndo s = false → handleUndo s = s)
    ∧ (canRedo s = false → handleRedo s = s)
    ∧ (s.historyIndex = (s.history.length : Int) - 1 → handleRedo s = s)
    ∧ (canUndo s = true →
        (handleUndo s).history = s.history
        ∧ (handleUndo s).historyIndex = s.historyIndex - 1)
    ∧ (canRedo s = true →
        (handleRedo s).history = s.history
        ∧ (handleRedo s).historyIndex = s.historyIndex + 1) := by
  refine ⟨?_, ?_, ?_, ?_, ?_, ?_⟩
  · intro h0
    have : canUndo s = false := by simp [canUndo, h0]
    simp [handleUndo, this]
  · intro h
    simp [handleUndo, h]
  · intro h
    simp [handleRedo, h]
  · intro hlast
    have : canRedo s = false := by simp [canRedo, hlast]
    simp [handleRedo, this]
  · intro h
    simp [handleUndo, h]
  · intro h
    simp [handleRedo, h]

/-- Claim C5 witness: concrete boundary states.  With the cursor at 0 of a
two-snapshot history, undo changes nothing; with the cursor at the last
index, redo changes nothing; from cursor 1, undo moves to 0. -/
theorem undo_redo_boundary_witness :
    handleUndo ⟨["a", "b"], 0, []⟩ = ⟨["a", "b"], 0, []⟩
    ∧ handleRedo ⟨["a", "b"], 1, []⟩ = ⟨["a", "b"], 1, []⟩
    ∧ (handleUndo ⟨["a", "b"], 1, []⟩).historyIndex = 0 := by
  refine ⟨(undo_redo_boundary_noops ⟨["a", "b"], 0, []⟩).1 (by decide), ?_, ?_⟩
  · exact (undo_redo_boundary_noops ⟨["a", "b"], 1, []⟩).2.2.2.1 (by decide)
  · have := ((undo_redo_boundary_noops ⟨["a", "b"], 1, []⟩).2.2.2.2.1 (by decide)).2
    rw [this]
    rfl

/-- Claim C6: every history operation — initial upload, commit, undo, redo,
reset-to-original, clear/upload-new, and the file-select dispatcher — maps a
state satisfying the History List invariant (`length == 0 ⇔ cursor == -1`,
and `0 ≤ cursor < length` when non-empty) to a state satisfying it again. -/
theorem history_ops_preserve_inv (s : AppState) (f : String)
    (files : List String) (hinv : historyInv s) :
    historyInv (handleImageUpload f s)
    ∧ historyInv (addImageToHistory f s)
    ∧ historyInv (handleUndo s)
    ∧ historyInv (handleRedo s)
    ∧ historyInv (handleReset s)
    ∧ historyInv (handleUploadNew s)
    ∧ historyInv (handleFileSelect files s) := by
  have huploadAny : ∀ g : String, historyInv (handleImageUpload g s) := by
    intro g
    refine ⟨?_, fun _ => ?_⟩
    · show [g] = [] ↔ (0 : Int) = -1
      simp
    · show (0 : Int) ≤ 0 ∧ (0 : Int) < ((1 : Nat) : Int)
      omega
  have hupload : historyInv (handleImageUpload f s) := huploadAny f
  have hcommit : historyInv (addImageToHistory f s) := by
    obtain ⟨hhist, hidx, hlast, -⟩ := commit_truncates_and_kills_redo s f hinv
    have hnn : 0 ≤ s.historyIndex + 1 := historyInv_nonneg_succ s hinv
    have hne : (addImageToHistory f s).history ≠ [] := by
      rw [hhist]
      simp
    refine ⟨⟨fun h => absurd h hne, fun h => ?_⟩, fun _ => ?_⟩
    · exfalso
      omega
    · omega
  have hundo : historyInv (handleUndo s) := by
    unfold handleUndo
    split
    · next hcan =>
      simp only [canUndo, decide_eq_true_eq] at hcan
      rcases hinv with ⟨hiff, hbound⟩
      have hne : s.history ≠ [] := by
        intro h
        have := hiff.mp h
        omega
      have hb := hbound hne
      refine ⟨?_, fun _ => ?_⟩
      · show s.history = [] ↔ s.historyIndex - 1 = -1
        constructor
        · intro h
          exact absurd h hne
        · intro h
          omega
      · show 0 ≤ s.historyIndex - 1 ∧ s.historyIndex - 1 < (s.history.length : Int)
        omega
    · exact hinv
  have hredo : historyInv (handleRedo s) := by
    unfold handleRedo
    split
    · next hcan =>
      simp only [canRedo, decide_eq_true_eq] at hcan
      rcases hinv with ⟨hiff, hbound⟩
      have hne : s.history ≠ [] := by
        intro h
        have h2 := hiff.mp h
        rw [h] at hcan
        simp at hcan
        omega
      have hb := hbound hne
      refine ⟨?_, fun _ => ?_⟩
      · show s.history = [] ↔ s.historyIndex + 1 = -1
        constructor
        · intro h
          exact absurd h hne
        · intro h
          omega
      · show 0 ≤ s.historyIndex + 1 ∧ s.historyIndex + 1 < (s.history.length : Int)
        omega
    · exact hinv
  have hreset : historyInv (handleReset s) := by
    unfold handleReset
    split
    · next hlen =>
      refine ⟨?_, fun _ => ?_⟩
      · show s.history = [] ↔ (0 : Int) = -1
        constructor
        · intro h
          rw [h] at hlen
          simp at hlen
        · intro h
          omega
      · show (0 : Int) ≤ 0 ∧ (0 : Int) < (s.history.length : Int)
        omega
    · exact hinv
  have hclear : historyInv (handleUploadNew s) := by
    refine ⟨?_, fun h => absurd rfl h⟩
    show ([] : List String) = [] ↔ (-1 : Int) = -1
    simp
  have hselect : historyInv (handleFileSelect files s) := by
    match files with
    | [] => exact hinv
    | [f'] => exact huploadAny f'
    | f' :: f'' :: rest =>
      refine ⟨?_, fun h => absurd rfl h⟩
      show ([] : List String) = [] ↔ (-1 : Int) = -1
      simp
  exact ⟨hupload, hcommit, hundo, hredo, hreset, hclear, hselect⟩

/-- Claim C6 witness: the invariant holds after each operation applied to a
concrete two-snapshot state with cursor 1. -/
theorem history_ops_preserve_inv_witness :
    historyInv (addImageToHistory "c" ⟨["a", "b"], 1, []⟩)
    ∧ historyInv (handleUndo ⟨["a", "b"], 1, []⟩)
    ∧ historyInv (handleFileSelect ["x", "y"] ⟨["a", "b"], 1, []⟩) := by
  have h := history_ops_preserve_inv ⟨["a", "b"], 1, []⟩ "c" ["x", "y"] (by decide)
  exact ⟨h.2.1, h.2.2.1, h.2.2.2.2.2.2⟩

/-- Claim C10: editing modes are mutually exclusive.  A single-image upload
empties the batch list; selecting two or more files empties the single-image
history and sets its cursor to `-1`; and the file-select dispatcher maps any
state with at most one non-empty mode to a state with at most one non-empty
mode (for an empty selection it does nothing, otherwise it rebuilds one mode
and clears the other). -/
theorem mode_mutual_exclusion (f : String) (files : List String)
    (s : AppState) (hmx : modeMutex s) :
    (handleImageUpload f s).batchImages = []
    ∧ modeMutex (handleImageUpload f s)
    ∧ (2 ≤ files.length →
        (handleFileSelect files s).history = []
        ∧ (handleFileSelect files s).historyIndex = -1)
    ∧ modeMutex (handleFileSelect files s) := by
  refine ⟨rfl, Or.inr rfl, ?_, ?_⟩
  · intro hlen
    match files with
    | [] => simp at hlen
    | [f'] => simp at hlen
    | f' :: f'' :: rest => exact ⟨rfl, rfl⟩
  · match files with
    | [] => exact hmx
    | [f'] => exact Or.inr rfl
    | f' :: f'' :: rest => exact Or.inl rfl

/-- Claim C10 witness: uploading into a batch-mode state clears the batch
list, and a two-file selection from a single-image state clears the history;
both results satisfy the mutual-exclusion invariant. -/
theorem mode_mutual_exclusion_witness :
    (handleImageUpload "f" ⟨[], -1,
        [{ id := 0, original := "b", status := .pending }]⟩).batchImages = []
    ∧ (handleFileSelect ["x", "y"] ⟨["a"], 0, []⟩).history = []
    ∧ (handleFileSelect ["x", "y"] ⟨["a"], 0, []⟩).historyIndex = -1
    ∧ modeMutex (handleFileSelect ["x", "y"] ⟨["a"], 0, []⟩) := by
  have h1 := mode_mutual_exclusion "f"
    ["x", "y"] ⟨[], -1, [{ id := 0, original := "b", status := .pending }]⟩
    (Or.inl rfl)
  have h2 := mode_mutual_exclusion "f" ["x", "y"] ⟨["a"], 0, []⟩ (Or.inr rfl)
  exact ⟨h1.1, (h2.2.2.1 (by decide)).1, (h2.2.2.1 (by decide)).2, h2.2.2.2⟩

theorem applyResult_id (r : Except String String) (img : BatchImage) :
    (applyResult r img).id = img.id := by
  cases r <;> rfl

theorem updById_id (r : Except String String) (tid : Nat) (img : BatchImage) :
    (updById r tid img).id = img.id := by
  unfold updById
  split
  · exact applyResult_id r img
  · rfl

theorem batchStep_eq_map (op : String → Except String String)
    (state : List BatchImage) (t : BatchImage) :
    batchStep op state t = state.map (updById (op t.original) t.id) := by
  unfold batchStep
  cases h : op t.original with
  | ok url =>
    dsimp only
    rw [List.map_map]
    congr 1
    funext img
    by_cases hid : img.id = t.id <;> simp [Function.comp, updById, applyResult, hid]
  | error msg =>
    dsimp only
    rw [List.map_map]
    congr 1
    funext img
    by_cases hid : img.id = t.id <;> simp [Function.comp, updById, applyResult, hid]

theorem retryStep_eq_map (op : String → Except String String)
    (state : List BatchImage) (t : BatchImage) :
    retryStep op state t = state.map (updById (op t.original) t.id) := by
  unfold retryStep
  cases h : op t.original with
  | ok url =>
    dsimp only
    rw [List.map_map]
    congr 1
    funext img
    by_cases hid : img.id = t.id <;> simp [Function.comp, updById, applyResult, hid]
  | error msg =>
    dsimp only
    rw [List.map_map]
    congr 1
    funext img
    by_cases hid : img.id = t.id <;> simp [Function.comp, updById, applyResult, hid]

theorem foldl_batchStep (op : String → Except String String)
    (ts : List BatchImage) :
    ∀ state : List BatchImage,
      ts.foldl (batchStep op) state = state.map fun img => updFold op img ts := by
  induction ts with
  | nil =>
    intro state
    simp [updFold]
  | cons t ts ih =>
    intro state
    rw [List.foldl_cons, ih, batchStep_eq_map, List.map_map]
    rfl

theorem updFold_id (op : String → Except String String) (ts : List BatchImage) :
    ∀ img : BatchImage, (updFold op img ts).id = img.id := by
  induction ts with
  | nil =>
    intro img
    rfl
  | cons t ts ih =>
    intro img
    show (updFold op (updById (op t.original) t.id img) ts).id = img.id
    rw [ih, updById_id]

theorem updFold_skip (op : String → Except String String) (ts : List BatchImage)
    (i : Nat) (hskip : ∀ t ∈ ts, t.id ≠ i) :
    ∀ img : BatchImage, img.id = i → updFold op img ts = img := by
  induction ts with
  | nil =>
    intro img _
    rfl
  | cons t ts ih =>
    intro img himg
    have ht : t.id ≠ i := hskip t (List.mem_cons_self t ts)
    show updFold op (updById (op t.original) t.id img) ts = img
    rw [show updById (op t.original) t.id img = img from by
      unfold updById
      rw [if_neg (show ¬ img.id = t.id from fun h => ht (by rw [← h]; exact himg))]]
    exact ih (fun t' ht' => hskip t' (List.mem_cons_of_mem _ ht')) img himg

theorem updFold_append (op : String → Except String String)
    (l₁ l₂ : List BatchImage) (img : BatchImage) :
    updFold op img (l₁ ++ l₂) = updFold op (updFold op img l₁) l₂ := by
  unfold updFold
  rw [List.foldl_append]

theorem updFold_eq_applyResult (op : String → Except String String)
    (ts : List BatchImage) (t₀ img : BatchImage) (hmem : t₀ ∈ ts)
    (hnd : (ts.map BatchImage.id).Nodup) (himg : img.id = t₀.id) :
    updFold op img ts = applyResult (op t₀.original) img := by
  obtain ⟨l₁, l₂, rfl⟩ := List.append_of_mem hmem
  rw [List.map_append, List.map_cons, List.nodup_append] at hnd
  obtain ⟨-, hnd2, hdisj⟩ := hnd
  rw [List.nodup_cons] at hnd2
  have h1 : ∀ t ∈ l₁, t.id ≠ t₀.id := by
    intro t ht he
    exact hdisj (List.mem_map_of_mem _ ht) (by rw [he]; exact List.mem_cons_self _ _)
  have h2 : ∀ t ∈ l₂, t.id ≠ t₀.id := by
    intro t ht he
    exact hnd2.1 (by rw [← he]; exact List.mem_map_of_mem _ ht)
  rw [updFold_append, updFold_skip op l₁ t₀.id h1 img himg]
  show updFold op (updById (op t₀.original) t₀.id img) l₂ = _
  rw [show updById (op t₀.original) t₀.id img = applyResult (op t₀.original) img from by
    unfold updById
    rw [if_pos himg]]
  exact updFold_skip op l₂ t₀.id h2 _ (by rw [applyResult_id]; exact himg)

theorem find?_map_of_id_preserved (g : BatchImage → BatchImage)
    (hg : ∀ x, (g x).id = x.id) (l : List BatchImage) (i : Nat) :
    (l.map g).find? (fun x => x.id == i) = (l.find? fun x => x.id == i).map g := by
  induction l with
  | nil => rfl
  | cons a l ih =>
    by_cases h : a.id = i
    · rw [List.map_cons, List.find?_cons_of_pos _ (by simp [hg, h]),
        List.find?_cons_of_pos _ (by simp [h])]
      rfl
    · rw [List.map_cons, List.find?_cons_of_neg _ (by simp [hg, h]),
        List.find?_cons_of_neg _ (by simp [h]), ih]

theorem find?_self_of_nodup (l : List BatchImage) (img : BatchImage)
    (hnd : (l.map BatchImage.id).Nodup) (hmem : img ∈ l) :
    (l.find? fun x => x.id == img.id) = some img := by
  induction l with
  | nil => cases hmem
  | cons a l ih =>
    rw [List.map_cons, List.nodup_cons] at hnd
    rcases List.mem_cons.mp hmem with rfl | hmem'
    · exact List.find?_cons_of_pos _ (by simp)
    · have hne : a.id ≠ img.id := by
        intro he
        exact hnd.1 (by rw [he]; exact List.mem_map_of_mem _ hmem')
      rw [List.find?_cons_of_neg _ (by simp [hne]), ih hnd.2 hmem']

theorem eq_of_mem_of_id_eq (l : List BatchImage)
    (hnd : (l.map BatchImage.id).Nodup) (a b : BatchImage)
    (ha : a ∈ l) (hb : b ∈ l) (hid : a.id = b.id) : a = b := by
  have h1 := find?_self_of_nodup l a hnd ha
  have h2 := find?_self_of_nodup l b hnd hb
  rw [hid] at h1
  rw [h1] at h2
  exact Option.some.inj h2

theorem getById_map_updFold (op : String → Except String String)
    (ts : List BatchImage) (items : List BatchImage) (img : BatchImage)
    (hnd : (items.map BatchImage.id).Nodup) (hmem : img ∈ items) :
    getById (items.map fun x => updFold op x ts) img.id
      = some (updFold op img ts) := by
  unfold getById
  rw [find?_map_of_id_preserved _ (fun x => updFold_id op ts x) items img.id,
    find?_self_of_nodup items img hnd hmem]
  rfl

theorem cancelPoint_const_false (k n : Nat) :
    cancelPoint (fun _ => false) k n = n := by
  induction n generalizing k with
  | zero => rfl
  | succ n ih =>
    simp only [cancelPoint]
    rw [if_neg (by simp), ih (k + 1)]

theorem runBatchAux_eq (op : String → Except String String)
    (c : Nat → Bool) (ts : List BatchImage) :
    ∀ (k : Nat) (state : List BatchImage) (invoked : List Nat),
      runBatchAux op c (state, invoked) k ts
        = ((ts.take (cancelPoint c k ts.length)).foldl (batchStep op) state,
           invoked ++ (ts.take (cancelPoint c k ts.length)).map BatchImage.id) := by
  induction ts with
  | nil =>
    intro k state invoked
    simp [runBatchAux, cancelPoint]
  | cons t ts ih =>
    intro k state invoked
    simp only [runBatchAux, List.length_cons, cancelPoint]
    by_cases hk : c k
    · rw [if_pos hk, if_pos hk]
      simp
    · rw [if_neg hk, if_neg hk, ih (k + 1) (batchStep op state t) (invoked ++ [t.id])]
      simp [List.take_succ_cons, List.append_assoc]

/-- Single characterization of a batch run (used by the claims about the
batch pipeline): the edit operation is invoked exactly on the ids of the
selected items up to the first observed cancellation, in original array
order, and the final version of every item is the recorded outcome of its
own operation if it belongs to that processed prefix, and its untouched
original self otherwise. -/
theorem handleBatchApplyRun_characterization (op : String → Except String String)
    (prompt : String) (fb : Bool) (c : Nat → Bool) (items : List BatchImage)
    (hids : (items.map BatchImage.id).Nodup) (hp : promptIsBlank prompt = false) :
    (handleBatchApplyRun fb prompt op c items).2
      = ((items.filter selectedForBatch).take
          (cancelPoint c 0 (items.filter selectedForBatch).length)).map BatchImage.id
    ∧ ∀ img ∈ items,
        getById (handleBatchApplyRun fb prompt op c items).1 img.id
          = some (if img ∈ (items.filter selectedForBatch).take
                (cancelPoint c 0 (items.filter selectedForBatch).length)
              then applyResult (op img.original) img else img) := by
  unfold handleBatchApplyRun
  rw [if_neg (by simp [hp])]
  by_cases hlen : (items.filter selectedForBatch).length = 0
  · rw [if_pos hlen]
    have hempty : items.filter selectedForBatch = [] := List.length_eq_zero.mp hlen
    constructor
    · rw [hempty]
      simp [cancelPoint]
    · intro img hm
      rw [hempty]
      rw [if_neg (by simp)]
      unfold getById
      rw [find?_self_of_nodup items img hids hm]
  · rw [if_neg hlen]
    rw [runBatchAux_eq op c (items.filter selectedForBatch) 0 items []]
    constructor
    · simp
    · intro img hm
      rw [foldl_batchStep]
      rw [getById_map_updFold op _ items img hids hm]
      congr 1
      by_cases hin : img ∈ (items.filter selectedForBatch).take
          (cancelPoint c 0 (items.filter selectedForBatch).length)
      · rw [if_pos hin]
        refine updFold_eq_applyResult op _ img img hin ?_ rfl
        exact List.Nodup.sublist
          (List.Sublist.map _ ((List.take_sublist _ _).trans (List.filter_sublist _)))
          hids
      · rw [if_neg hin]
        refine updFold_skip op _ img.id ?_ img rfl
        intro t ht he
        have htmem : t ∈ items :=
          ((List.take_sublist _ _).trans (List.filter_sublist _)).subset ht
        have : t = img := eq_of_mem_of_id_eq items hids t img htmem hm he
        exact hin (this ▸ ht)

/-- Claim C2: a batch run with no cancellation request selects exactly the
items whose status is pending or error; an empty selection returns
immediately with the item list untouched and the operation never invoked;
otherwise the operation is invoked once per selected item, in original array
order (the trace of invocations is the selected ids in order — processing is
a strictly sequential fold, so an item's operation starts only after the
previous item's outcome is recorded); a successful operation leaves the item
done with its result and a cleared error message, a failed one leaves it in
error with the failure's message, and every non-selected item is returned
unchanged — one item's failure never prevents the rest from being
processed. -/
theorem batch_sequential_run (op : String → Except String String)
    (prompt : String) (fb : Bool) (items : List BatchImage)
    (hids : (items.map BatchImage.id).Nodup) (hp : promptIsBlank prompt = false) :
    ((items.filter selectedForBatch).length = 0 →
        handleBatchApplyRun fb prompt op (fun _ => false) items = (items, []))
    ∧ (handleBatchApplyRun fb prompt op (fun _ => false) items).2
        = (items.filter selectedForBatch).map BatchImage.id
    ∧ (∀ img ∈ items, selectedForBatch img = true →
        getById (handleBatchApplyRun fb prompt op (fun _ => false) items).1 img.id
          = some (applyResult (op img.original) img))
    ∧ (∀ img ∈ items, selectedForBatch img = false →
        getById (handleBatchApplyRun fb prompt op (fun _ => false) items).1 img.id
          = some img) := by
  have hchar := handleBatchApplyRun_characterization op prompt fb
    (fun _ => false) items hids hp
  have hcp : cancelPoint (fun _ => false) 0 (items.filter selectedForBatch).length
      = (items.filter selectedForBatch).length := cancelPoint_const_false 0 _
  refine ⟨?_, ?_, ?_, ?_⟩
  · intro h0
    simp [handleBatchApplyRun, hp, h0]
  · rw [hchar.1, hcp, List.take_length]
  · intro img hm hsel
    have h := hchar.2 img hm
    rw [hcp, List.take_length] at h
    rw [h, if_pos (List.mem_filter.mpr ⟨hm, hsel⟩)]
  · intro img hm hsel
    have h := hchar.2 img hm
    rw [hcp, List.take_length] at h
    rw [h, if_neg fun hin => by
      have := (List.mem_filter.mp hin).2
      rw [hsel] at this
      cases this]

/-- Claim C2 witness: three items — pending, error, done — run with an
operation that fails on the second source image.  Exactly the pending and
error items are invoked, in order; the pending item ends done with its
result and a cleared message, the error item records the new failure
message, and the done item is untouched. -/
theorem batch_sequential_run_witness :
    (handleBatchApplyRun false "p"
        (fun s => if s = "b" then Except.error "boom" else Except.ok "new")
        (fun _ => false)
        [⟨0, "a", none, .pending, none⟩, ⟨1, "b", none, .error, some "old"⟩,
         ⟨2, "c", some "u", .done, none⟩]).2 = [0, 1]
    ∧ getById (handleBatchApplyRun false "p"
        (fun s => if s = "b" then Except.error "boom" else Except.ok "new")
        (fun _ => false)
        [⟨0, "a", none, .pending, none⟩, ⟨1, "b", none, .error, some "old"⟩,
         ⟨2, "c", some "u", .done, none⟩]).1 0 = some ⟨0, "a", some "new", .done, none⟩
    ∧ getById (handleBatchApplyRun false "p"
        (fun s => if s = "b" then Except.error "boom" else Except.ok "new")
        (fun _ => false)
        [⟨0, "a", none, .pending, none⟩, ⟨1, "b", none, .error, some "old"⟩,
         ⟨2, "c", some "u", .done, none⟩]).1 1 = some ⟨1, "b", none, .error, some "boom"⟩
    ∧ getById (handleBatchApplyRun false "p"
        (fun s => if s = "b" then Except.error "boom" else Except.ok "new")
        (fun _ => false)
        [⟨0, "a", none, .pending, none⟩, ⟨1, "b", none, .error, some "old"⟩,
         ⟨2, "c", some "u", .done, none⟩]).1 2 = some ⟨2, "c", some "u", .done, none⟩ := by
  have h := batch_sequential_run
    (fun s => if s = "b" then Except.error "boom" else Except.ok "new") "p" false
    [⟨0, "a", none, .pending, none⟩, ⟨1, "b", none, .error, some "old"⟩,
     ⟨2, "c", some "u", .done, none⟩] (by decide) (by decide)
  refine ⟨?_, ?_, ?_, ?_⟩
  · rw [h.2.1]
    rfl
  · rw [h.2.2.1 ⟨0, "a", none, .pending, none⟩ (by decide) (by decide)]
    rfl
  · rw [h.2.2.1 ⟨1, "b", none, .error, some "old"⟩ (by decide) (by decide)]
    rfl
  · rw [h.2.2.2 ⟨2, "c", some "u", .done, none⟩ (by decide) (by decide)]

/-- Claim C3: cancellation in a batch run.  The run's result is independent
of whatever the cancellation flag held before the run (the flag is reset on
entry); the operation is invoked exactly on the selected items before the
first loop check that observes the flag raised, in order (so once the flag
is observed no further item is started, and the item in flight when the flag
is raised still has its outcome recorded normally, since each iteration's
check happens before the item starts); every selected item inside that
prefix ends with its operation's recorded outcome, and every other item —
unreached pending/error items and unselected done/error items alike — is
returned exactly unchanged. -/
theorem batch_cancellation (op : String → Except String String)
    (prompt : String) (fb : Bool) (c : Nat → Bool) (items : List BatchImage)
    (hids : (items.map BatchImage.id).Nodup) (hp : promptIsBlank prompt = false) :
    handleBatchApplyRun true prompt op c items
        = handleBatchApplyRun false prompt op c items
    ∧ (handleBatchApplyRun fb prompt op c items).2
        = ((items.filter selectedForBatch).take
            (cancelPoint c 0 (items.filter selectedForBatch).length)).map BatchImage.id
    ∧ (∀ img ∈ items,
        img ∈ (items.filter selectedForBatch).take
            (cancelPoint c 0 (items.filter selectedForBatch).length) →
        getById (handleBatchApplyRun fb prompt op c items).1 img.id
          = some (applyResult (op img.original) img))
    ∧ (∀ img ∈ items,
        img ∉ (items.filter selectedForBatch).take
            (cancelPoint c 0 (items.filter selectedForBatch).length) →
        getById (handleBatchApplyRun fb prompt op c items).1 img.id = some img) := by
  have hchar := handleBatchApplyRun_characterization op prompt fb c items hids hp
  refine ⟨rfl, hchar.1, ?_, ?_⟩
  · intro img hm hin
    rw [hchar.2 img hm, if_pos hin]
  · intro img hm hin
    rw [hchar.2 img hm, if_neg hin]

/-- Claim C3 witness: the spec's scenario — five pending items, the flag
first observed raised at the check before the third item.  Items 1 and 2
finish (done), the operation trace stops after their ids, and items 3-5 are
returned still pending. -/
theorem batch_cancellation_witness :
    (handleBatchApplyRun false "p" (fun _ => Except.ok "r")
        (fun k => decide (2 ≤ k))
        [⟨0, "a", none, .pending, none⟩, ⟨1, "b", none, .pending, none⟩,
         ⟨2, "c", none, .pending, none⟩, ⟨3, "d", none, .pending, none⟩,
         ⟨4, "e", none, .pending, none⟩]).2 = [0, 1]
    ∧ getById (handleBatchApplyRun false "p" (fun _ => Except.ok "r")
        (fun k => decide (2 ≤ k))
        [⟨0, "a", none, .pending, none⟩, ⟨1, "b", none, .pending, none⟩,
         ⟨2, "c", none, .pending, none⟩, ⟨3, "d", none, .pending, none⟩,
         ⟨4, "e", none, .pending, none⟩]).1 1 = some ⟨1, "b", some "r", .done, none⟩
    ∧ getById (handleBatchApplyRun false "p" (fun _ => Except.ok "r")
        (fun k => decide (2 ≤ k))
        [⟨0, "a", none, .pending, none⟩, ⟨1, "b", none, .pending, none⟩,
         ⟨2, "c", none, .pending, none⟩, ⟨3, "d", none, .pending, none⟩,
         ⟨4, "e", none, .pending, none⟩]).1 2 = some ⟨2, "c", none, .pending, none⟩
    ∧ getById (handleBatchApplyRun false "p" (fun _ => Except.ok "r")
        (fun k => decide (2 ≤ k))
        [⟨0, "a", none, .pending, none⟩, ⟨1, "b", none, .pending, none⟩,
         ⟨2, "c", none, .pending, none⟩, ⟨3, "d", none, .pending, none⟩,
         ⟨4, "e", none, .pending, none⟩]).1 4 = some ⟨4, "e", none, .pending, none⟩ := by
  have h := batch_cancellation (fun _ => Except.ok "r") "p" false
    (fun k => decide (2 ≤ k))
    [⟨0, "a", none, .pending, none⟩, ⟨1, "b", none, .pending, none⟩,
     ⟨2, "c", none, .pending, none⟩, ⟨3, "d", none, .pending, none⟩,
     ⟨4, "e", none, .pending, none⟩] (by decide) (by decide)
  refine ⟨?_, ?_, ?_, ?_⟩
  · rw [h.2.1]
    rfl
  · rw [h.2.2.1 ⟨1, "b", none, .pending, none⟩ (by decide) (by decide)]
    rfl
  · exact h.2.2.2 ⟨2, "c", none, .pending, none⟩ (by decide) (by decide)
  · exact h.2.2.2 ⟨4, "e", none, .pending, none⟩ (by decide) (by decide)

/-- Claim C4 counterexample: the retry handler has no status guard.  Invoked
on an item whose status is `pending` (adjust tab active, non-blank prompt),
it is neither a no-op nor rejected: the edit operation is invoked for the
item (the invocation trace is non-empty) and the item transitions to `done`. -/
theorem retry_on_pending_transitions :
    (handleRetryImage .adjust "" "p" (fun _ => Except.ok "url")
        [⟨0, "img", none, .pending, none⟩] ⟨0, "img", none, .pending, none⟩).2 = [0]
    ∧ (handleRetryImage .adjust "" "p" (fun _ => Except.ok "url")
        [⟨0, "img", none, .pending, none⟩] ⟨0, "img", none, .pending, none⟩).1
        = [⟨0, "img", some "url", .done, none⟩]
    ∧ (handleRetryImage .adjust "" "p" (fun _ => Except.ok "url")
        [⟨0, "img", none, .pending, none⟩] ⟨0, "img", none, .pending, none⟩).1
        ≠ [⟨0, "img", none, .pending, none⟩]
    ∧ (⟨0, "img", none, .pending, none⟩ : BatchImage).status = .pending := by
  decide

/-- Claim C4 (amended): retry is rejected (state unchanged, operation not
invoked) exactly when the active tab is neither adjust nor filters or the
tab's prompt is blank; with a mask-compatible tab and a non-blank prompt it
transitions the target item — whatever its current status, the handler
checks none — through processing to the recorded outcome of its operation,
with the same per-item semantics as a batch run (`applyResult`), leaving
every other item unchanged.  The only-from-`error` restriction lives in the
UI, which renders the Retry control solely on items in the error state. -/
theorem retry_semantics (tab : Tab) (fp ap : String)
    (op : String → Except String String) (items : List BatchImage)
    (target : BatchImage) (hids : (items.map BatchImage.id).Nodup)
    (hmem : target ∈ items) :
    ((tab ≠ Tab.adjust ∧ tab ≠ Tab.filters) →
        handleRetryImage tab fp ap op items target = (items, []))
    ∧ (promptIsBlank (retryPrompt tab fp ap) = true →
        handleRetryImage tab fp ap op items target = (items, []))
    ∧ ((tab = Tab.adjust ∨ tab = Tab.filters) →
        promptIsBlank (retryPrompt tab fp ap) = false →
        (handleRetryImage tab fp ap op items target).2 = [target.id]
        ∧ getById (handleRetryImage tab fp ap op items target).1 target.id
            = some (applyResult (op target.original) target)
        ∧ ∀ img ∈ items, img.id ≠ target.id →
            getById (handleRetryImage tab fp ap op items target).1 img.id
              = some img) := by
  refine ⟨?_, ?_, ?_⟩
  · intro hbad
    simp [handleRetryImage, hbad.1, hbad.2]
  · intro hblank
    by_cases htab : tab ≠ Tab.adjust ∧ tab ≠ Tab.filters
    · simp [handleRetryImage, htab.1, htab.2]
    · simp [handleRetryImage, htab, hblank]
  · intro hvalid hblank
    have htab : ¬(tab ≠ Tab.adjust ∧ tab ≠ Tab.filters) := by
      rcases hvalid with rfl | rfl <;> simp
    have hrun : handleRetryImage tab fp ap op items target
        = (retryStep op items target, [target.id]) := by
      simp [handleRetryImage, htab, hblank]
    refine ⟨by rw [hrun], ?_, ?_⟩
    · rw [hrun]
      dsimp only
      rw [retryStep_eq_map]
      unfold getById
      rw [find?_map_of_id_preserved _ (fun x => updById_id _ _ x) items target.id,
        find?_self_of_nodup items target hids hmem]
      show some (updById (op target.original) target.id target) = _
      unfold updById
      rw [if_pos rfl]
    · intro img hm hne
      rw [hrun]
      dsimp only
      rw [retryStep_eq_map]
      unfold getById
      rw [find?_map_of_id_preserved _ (fun x => updById_id _ _ x) items img.id,
        find?_self_of_nodup items img hids hm]
      show some (updById (op target.original) target.id img) = some img
      unfold updById
      rw [if_neg hne]

/-- Claim C4 witness (for the amended theorem): retrying the error item of a
two-item list on the filters tab with a failing operation re-records the new
failure message on that item and leaves the pending item untouched. -/
theorem retry_semantics_witness :
    (handleRetryImage .filters "fp" "" (fun _ => Except.error "bad")
        [⟨0, "a", none, .error, some "old"⟩, ⟨1, "b", none, .pending, none⟩]
        ⟨0, "a", none, .error, some "old"⟩).2 = [0]
    ∧ getById (handleRetryImage .filters "fp" "" (fun _ => Except.error "bad")
        [⟨0, "a", none, .error, some "old"⟩, ⟨1, "b", none, .pending, none⟩]
        ⟨0, "a", none, .error, some "old"⟩).1 0
        = some ⟨0, "a", none, .error, some "bad"⟩
    ∧ getById (handleRetryImage .filters "fp" "" (fun _ => Except.error "bad")
        [⟨0, "a", none, .error, some "old"⟩, ⟨1, "b", none, .pending, none⟩]
        ⟨0, "a", none, .error, some "old"⟩).1 1
        = some ⟨1, "b", none, .pending, none⟩ := by
  have h := retry_semantics .filters "fp" "" (fun _ => Except.error "bad")
    [⟨0, "a", none, .error, some "old"⟩, ⟨1, "b", none, .pending, none⟩]
    ⟨0, "a", none, .error, some "old"⟩ (by decide) (by decide)
  have h3 := h.2.2 (Or.inr rfl) (by decide)
  refine ⟨h3.1, ?_, ?_⟩
  · rw [h3.2.1]
    rfl
  · exact h3.2.2 ⟨1, "b", none, .pending, none⟩ (by decide) (by decide)

/-- Claim C7: for any pointer event and any transform with positive zoom,
the image-space point computed by `getPointOnImage` is exactly
`((vx - pan.x) / zoom, (vy - pan.y) / zoom)` where `(vx, vy)` is the
viewport-local pointer position (client position minus the viewport
rectangle corner); in particular zoom 2, pan (10,10) maps viewport point
(110,110) to image point (50,50). -/
theorem getPointOnImage_spec (zoom panx pany rl rt cx cy vx vy : ℚ)
    (_hz : 0 < zoom) (hvx : cx - rl = vx) (hvy : cy - rt = vy) :
    getPointOnImage zoom ⟨panx, pany⟩ ⟨rl, rt⟩ ⟨cx, cy⟩
      = ⟨(vx - panx) / zoom, (vy - pany) / zoom⟩
    ∧ getPointOnImage 2 ⟨10, 10⟩ ⟨0, 0⟩ ⟨110, 110⟩ = ⟨50, 50⟩ := by
  constructor
  · unfold getPointOnImage
    rw [show (⟨cx, cy⟩ : Vec2).x - (⟨rl, rt⟩ : Vec2).x = vx from hvx,
      show (⟨cx, cy⟩ : Vec2).y - (⟨rl, rt⟩ : Vec2).y = vy from hvy]
  · unfold getPointOnImage
    rw [Vec2.mk.injEq]
    norm_num

/-- Claim C7 witness: zoom 2, pan (10,10), viewport rectangle corner at
(5,5), client point (115,115) — the viewport-local point is (110,110) and
the image point is (50,50). -/
theorem getPointOnImage_spec_witness :
    getPointOnImage 2 ⟨10, 10⟩ ⟨5, 5⟩ ⟨115, 115⟩ = ⟨50, 50⟩ := by
  have h := getPointOnImage_spec 2 10 10 5 5 115 115 110 110
    (by norm_num) (by norm_num) (by norm_num)
  rw [h.1, Vec2.mk.injEq]
  norm_num

/-- Claim C8: one wheel event produces the scaled zoom clamped to
`[0.1, 5.0]`, a pan recomputed from the pre-zoom image-space coordinate and
the new zoom with no clamping applied to it, and the image-space point under
the cursor is invariant: un-mapping the viewport-local cursor position
through the new transform gives the same image point as through the old
transform (in both coordinates). -/
theorem wheel_zoom_about_cursor (zoom panx pany rl rt cx cy deltaY : ℚ)
    (_hz : 0 < zoom) :
    (handleWheel zoom ⟨panx, pany⟩ ⟨rl, rt⟩ ⟨cx, cy⟩ deltaY).1
      = max (1 / 10) (min (zoom * (1 - deltaY * (1 / 1000))) 5)
    ∧ 0 < (handleWheel zoom ⟨panx, pany⟩ ⟨rl, rt⟩ ⟨cx, cy⟩ deltaY).1
    ∧ (handleWheel zoom ⟨panx, pany⟩ ⟨rl, rt⟩ ⟨cx, cy⟩ deltaY).2
      = ⟨(cx - rl) - ((cx - rl) - panx) / zoom
            * (handleWheel zoom ⟨panx, pany⟩ ⟨rl, rt⟩ ⟨cx, cy⟩ deltaY).1,
         (cy - rt) - ((cy - rt) - pany) / zoom
            * (handleWheel zoom ⟨panx, pany⟩ ⟨rl, rt⟩ ⟨cx, cy⟩ deltaY).1⟩
    ∧ ((cx - rl) - (handleWheel zoom ⟨panx, pany⟩ ⟨rl, rt⟩ ⟨cx, cy⟩ deltaY).2.x)
          / (handleWheel zoom ⟨panx, pany⟩ ⟨rl, rt⟩ ⟨cx, cy⟩ deltaY).1
      = ((cx - rl) - panx) / zoom
    ∧ ((cy - rt) - (handleWheel zoom ⟨panx, pany⟩ ⟨rl, rt⟩ ⟨cx, cy⟩ deltaY).2.y)
          / (handleWheel zoom ⟨panx, pany⟩ ⟨rl, rt⟩ ⟨cx, cy⟩ deltaY).1
      = ((cy - rt) - pany) / zoom := by
  have hz1 : (handleWheel zoom ⟨panx, pany⟩ ⟨rl, rt⟩ ⟨cx, cy⟩ deltaY).1
      = max (1 / 10) (min (zoom * (1 - deltaY * (1 / 1000))) 5) := rfl
  have hpos : 0 < (handleWheel zoom ⟨panx, pany⟩ ⟨rl, rt⟩ ⟨cx, cy⟩ deltaY).1 := by
    rw [hz1]
    exact lt_of_lt_of_le (by norm_num) (le_max_left _ _)
  have key : ∀ a p w : ℚ, w ≠ 0 →
      (a - (a - (a - p) / zoom * w)) / w = (a - p) / zoom := by
    intro a p w hw
    rw [show a - (a - (a - p) / zoom * w) = (a - p) / zoom * w from by ring,
      mul_div_cancel_right₀ _ hw]
  exact ⟨hz1, hpos, rfl,
    key (cx - rl) panx _ (ne_of_gt hpos),
    key (cy - rt) pany _ (ne_of_gt hpos)⟩

/-- Claim C8 witness: the spec's example — zoom 1 to 2 (deltaY -1000)
centered on viewport point (100,100) with pan (0,0): the new zoom is 2 and
the image point under the cursor is still 100 in each coordinate. -/
theorem wheel_zoom_witness :
    (handleWheel 1 ⟨0, 0⟩ ⟨0, 0⟩ ⟨100, 100⟩ (-1000)).1 = 2
    ∧ ((100 : ℚ) - (handleWheel 1 ⟨0, 0⟩ ⟨0, 0⟩ ⟨100, 100⟩ (-1000)).2.x)
        / (handleWheel 1 ⟨0, 0⟩ ⟨0, 0⟩ ⟨100, 100⟩ (-1000)).1 = 100 := by
  have h := wheel_zoom_about_cursor 1 0 0 0 0 100 100 (-1000) (by norm_num)
  have h4 := h.2.2.2.1
  norm_num at h4
  constructor
  · rw [h.1]
    norm_num
  · exact h4

theorem isCanvasBlank_iff (c : MaskCanvas) :
    isCanvasBlank (some c) = true ↔ ∀ p ∈ c.data, p = Pixel.zero := by
  simp [isCanvasBlank]

/-- Claim C9: mask export returns "no mask" (null) exactly when every pixel
of the raw stroke buffer is zero; a non-blank buffer exports as a same-size
artifact obtained by compositing every stroke pixel over an opaque black
background (in particular a transparent stroke pixel becomes opaque black);
a caller with masking enabled surfaces the user-facing error and never
invokes the edit operation when the export is null, and otherwise passes
exactly the flattened export — never the raw stroke buffer — to the
operation. -/
theorem mask_export_spec (c : MaskCanvas) (mc : Option MaskCanvas)
    (op : Option MaskCanvas → Except String String) :
    (getMaskAsFile (some c) = none ↔ ∀ p ∈ c.data, p = Pixel.zero)
    ∧ ((∃ p ∈ c.data, p ≠ Pixel.zero) →
        getMaskAsFile (some c)
          = some ⟨c.width, c.height, c.data.map overOpaqueBlack⟩)
    ∧ overOpaqueBlack Pixel.zero = ⟨0, 0, 0, 1⟩
    ∧ (getMaskAsFile mc = none →
        handleApplyFilterSingle true mc op = .errored maskMissingError)
    ∧ (∀ m, getMaskAsFile mc = some m →
        handleApplyFilterSingle true mc op = .invoked (some m) (op (some m))) := by
  refine ⟨?_, ?_, ?_, ?_, ?_⟩
  · unfold getMaskAsFile
    dsimp only
    by_cases hb : isCanvasBlank (some c) = true
    · rw [if_pos hb]
      exact ⟨fun _ => (isCanvasBlank_iff c).mp hb, fun _ => rfl⟩
    · rw [if_neg hb]
      constructor
      · intro h
        exact absurd h (by simp)
      · intro hall
        exact absurd ((isCanvasBlank_iff c).mpr hall) hb
  · rintro ⟨p, hp, hpne⟩
    unfold getMaskAsFile
    dsimp only
    rw [if_neg (show ¬(isCanvasBlank (some c) = true) from
      fun hb => hpne ((isCanvasBlank_iff c).mp hb p hp))]
  · show Pixel.mk (0 * 0) (0 * 0) (0 * 0) 1 = ⟨0, 0, 0, 1⟩
    norm_num
  · intro hnone
    simp [handleApplyFilterSingle, hnone]
  · intro m hsome
    simp [handleApplyFilterSingle, hsome]

/-- Claim C9 witness: an untouched one-pixel buffer exports as blank, so the
masking caller errors out without invoking the operation; a buffer with one
opaque-white dot next to a transparent pixel exports as a same-size artifact
whose background pixel is opaque black and whose dot is still white. -/
theorem mask_export_witness :
    getMaskAsFile (some ⟨1, 1, [Pixel.zero]⟩) = none
    ∧ handleApplyFilterSingle true (some ⟨1, 1, [Pixel.zero]⟩)
        (fun _ => Except.ok "out") = .errored maskMissingError
    ∧ getMaskAsFile (some ⟨2, 1, [Pixel.zero, ⟨1, 1, 1, 1⟩]⟩)
        = some ⟨2, 1, [⟨0, 0, 0, 1⟩, ⟨1, 1, 1, 1⟩]⟩ := by
  have h0 := mask_export_spec ⟨1, 1, [Pixel.zero]⟩ (some ⟨1, 1, [Pixel.zero]⟩)
    (fun _ => Except.ok "out")
  have h1 := mask_export_spec ⟨2, 1, [Pixel.zero, ⟨1, 1, 1, 1⟩]⟩ none
    (fun _ => Except.ok "out")
  have hblank : getMaskAsFile (some (⟨1, 1, [Pixel.zero]⟩ : MaskCanvas)) = none :=
    h0.1.mpr (by intro p hp; exact List.mem_singleton.mp hp)
  refine ⟨hblank, h0.2.2.2.1 hblank, ?_⟩
  have hex : ∃ p ∈ ([Pixel.zero, ⟨1, 1, 1, 1⟩] : List Pixel), p ≠ Pixel.zero := by
    refine ⟨⟨1, 1, 1, 1⟩, by simp, ?_⟩
    simp [Pixel.zero]
  have hdot := h1.2.1 hex
  rw [hdot]
  simp only [List.map_cons, List.map_nil, overOpaqueBlack, Pixel.zero]
  norm_num [MaskCanvas.mk.injEq, Pixel.mk.injEq]

end PixelShop
